import Mathlib

/-!
Verification development for the TacoPKM CLI client (`src/index.js`).

The CLI resolves and installs libraries whose metadata lives in an EVM
contract and whose artifacts live in IPFS.  This file gives a shallow
embedding of the client logic that the checked claims are about:

* a model of SemVer 2.0.0 precedence and of the subset of node-semver
  range semantics the client consumes (`satisfies`, `maxSatisfying`,
  `prerelease`);
* the recursive installer `processInstallation` (src/index.js:535-656),
  with the resolved-version map, the download/extract log and the
  deprecation warnings made explicit state, and recursion bounded by
  fuel (the JS recursion is unbounded; termination is proved as a fuel
  sufficiency theorem);
* the latest-stable resolution of the `install` command
  (src/index.js:1771-1798);
* the network-configuration precedence of
  `ensureNetworkClientsInitialized` (src/index.js:123-236);
* the password acquisition of `loadWalletAndConnect`
  (src/index.js:287-333);
* the `config add` profile/active-network update (src/index.js:822-882);
* the `publish` pipeline's pre-checks and temp-archive lifecycle
  (src/index.js:1534-1697);
* the `purchase-license` pre-checks and transaction value
  (src/index.js:2683-2797);
* the `deprecate` pre-checks (src/index.js:1912-1996).

External collaborators (ethers, the IPFS transport, the terminal UI) are
modelled at the interface level: chain reads are environment fields,
address validity is a predicate parameter, prompts are boolean/string
inputs.
-/

namespace TPKM
/-- A SemVer 2.0.0 prerelease identifier: numeric identifiers compare
numerically and are lower than alphanumeric ones, which compare
lexically (the client uses the semver npm package). -/
inductive PreId where
  | num (n : Nat)
  | str (s : String)
deriving DecidableEq, Repr

/-- Strict precedence order on prerelease identifiers (SemVer 2.0.0 §11). -/
def PreId.precLt : PreId → PreId → Bool
  | .num a, .num b => decide (a < b)
  | .num _, .str _ => true
  | .str _, .num _ => false
  | .str a, .str b => decide (a < b)

/-- Strict precedence order on two nonempty prerelease identifier lists:
identifier-wise comparison, a strict prefix being lower (SemVer 2.0.0 §11). -/
def preListLt : List PreId → List PreId → Bool
  | [], [] => false
  | [], _ :: _ => true
  | _ :: _, [] => false
  | a :: as, b :: bs => if a = b then preListLt as bs else PreId.precLt a b

/-- A parsed semantic version `MAJOR.MINOR.PATCH[-pre]`.  Build metadata
is ignored by precedence and by every client operation, so it is not
modelled. -/
structure SemVer where
  major : Nat
  minor : Nat
  patch : Nat
  pre : List PreId
deriving DecidableEq, Repr

/-- Prerelease-list comparison as it enters version precedence: a version
with a prerelease list precedes the same core without one. -/
def preStageLt : List PreId → List PreId → Bool
  | _ :: _, [] => true
  | [], _ => false
  | ps, qs => preListLt ps qs

/-- SemVer 2.0.0 precedence, strict: compare major, minor, patch
numerically, then treat a prerelease as lower than the plain release and
compare prerelease lists identifier-wise. -/
def SemVer.precLt (v w : SemVer) : Bool :=
  decide (v.major < w.major) ||
    (decide (v.major = w.major) && (decide (v.minor < w.minor) ||
      (decide (v.minor = w.minor) && (decide (v.patch < w.patch) ||
        (decide (v.patch = w.patch) && preStageLt v.pre w.pre)))))

/-- The subset of node-semver range expressions the client feeds to
`semver.satisfies` / `semver.maxSatisfying`: an exact version, the `*`
wildcard (used by the install command for "latest"), and caret / tilde
ranges as they appear in dependency constraints. -/
inductive Constraint where
  | exact (v : SemVer)
  | star
  | caret (base : SemVer)
  | tilde (base : SemVer)
deriving DecidableEq, Repr

/-- node-semver `satisfies` on the modelled range subset, with the
default prerelease rule: a prerelease version only matches a range whose
comparator on the same `[major, minor, patch]` tuple itself carries a
prerelease. -/
def satisfies (v : SemVer) (c : Constraint) : Bool :=
  match c with
  | .exact w => decide (v = w)
  | .star => v.pre.isEmpty
  | .caret b =>
      let upper : SemVer :=
        if b.major > 0 then ⟨b.major + 1, 0, 0, []⟩
        else if b.minor > 0 then ⟨0, b.minor + 1, 0, []⟩
        else ⟨0, 0, b.patch + 1, []⟩
      !(SemVer.precLt v b) && SemVer.precLt v upper &&
        (v.pre.isEmpty ||
          (decide (v.major = b.major) && decide (v.minor = b.minor) &&
            decide (v.patch = b.patch) && !b.pre.isEmpty))
  | .tilde b =>
      let upper : SemVer := ⟨b.major, b.minor + 1, 0, []⟩
      !(SemVer.precLt v b) && SemVer.precLt v upper &&
        (v.pre.isEmpty ||
          (decide (v.major = b.major) && decide (v.minor = b.minor) &&
            decide (v.patch = b.patch) && !b.pre.isEmpty))

/-- `semver.prerelease(v) === null` in the client's latest-stable filter:
true exactly when the version has no prerelease identifiers. -/
def SemVer.isStable (v : SemVer) : Bool := v.pre.isEmpty

/-- Highest element of a version list under SemVer precedence (`none` on
an empty list); the selection core of node-semver `maxSatisfying`. -/
def maxOfList (l : List SemVer) : Option SemVer :=
  l.foldl (fun acc v =>
    match acc with
    | none => some v
    | some m => if SemVer.precLt m v then some v else some m) none

/-- node-semver `maxSatisfying`: the highest available version that
satisfies the range, `none` when no version does. -/
def maxSatisfying (vs : List SemVer) (c : Constraint) : Option SemVer :=
  maxOfList (vs.filter (fun v => satisfies v c))

/-- Rendering of a prerelease identifier, as the semver package prints it. -/
def PreId.render : PreId → String
  | .num n => toString n
  | .str s => s

/-- Rendering of a version back to its `M.m.p[-pre]` string form (the JS
code interpolates raw version strings into messages and paths). -/
def SemVer.render (v : SemVer) : String :=
  let core := toString v.major ++ ("." : String) ++ toString v.minor ++
    ("." : String) ++ toString v.patch
  match v.pre with
  | [] => core
  | ps => core ++ ("-" : String) ++ String.intercalate (".") (ps.map PreId.render)

/-- Rendering of a range back to its node-semver string form. -/
def Constraint.render : Constraint → String
  | .exact v => v.render
  | .star => ("*" : String)
  | .caret b => ("^" : String) ++ b.render
  | .tilde b => ("~" : String) ++ b.render

/-- On-chain version record as consumed by the installer
(`getVersionInfo` returns `[ipfsHash, publisher, timestamp, isDeprecated,
dependencies]`; publisher and timestamp are display-only and elided). -/
structure VersionRecord where
  ipfsHash : String
  deprecated : Bool
  deps : List (String × Constraint)
deriving DecidableEq, Repr

/-- The read-only contract surface the installer consumes: version lists
and version records per library name, plus the `hasAccess` view. -/
structure Registry where
  libs : List (String × List (SemVer × VersionRecord))
  hasAccess : String → String → Bool

/-- `getVersionNumbers(name)`: all published versions of a library, the
empty list standing for "library absent or no versions" (the contract
call that fails for a missing library is surfaced the same way at
src/index.js:558-561). -/
def Registry.versionNumbers (reg : Registry) (name : String) : List SemVer :=
  match reg.libs.lookup name with
  | some entries => entries.map Prod.fst
  | none => []

/-- `getVersionInfo(name, version)`: the stored record of one version. -/
def Registry.versionInfo (reg : Registry) (name : String) (v : SemVer) :
    Option VersionRecord :=
  match reg.libs.lookup name with
  | some entries => entries.lookup v
  | none => none

/-- Installer state threaded through `processInstallation`: the resolved
map (`resolvedMap` in the JS), the download/extract log (name, version,
extraction directory) standing for the filesystem effects of
`downloadAndExtract`, and the deprecation warnings printed at
src/index.js:628-630. -/
structure InstallState where
  resolved : List (String × SemVer)
  downloads : List (String × SemVer × String)
  deprecationWarnings : List (String × SemVer)
deriving DecidableEq, Repr

/-- The empty state created at the start of an install run
(src/index.js:1742). -/
def initialInstallState : InstallState := ⟨[], [], []⟩

/-- The abort causes of `processInstallation` (each a `throw new Error`
in the JS); `outOfFuel` is an artifact of the fuel bound and is proved
unreachable for sufficient fuel. -/
inductive InstallError where
  | versionConflict (name : String) (resolved : SemVer) (constraint : Constraint)
  | notFound (name : String)
  | noMatch (name : String) (constraint : Constraint)
  | accessDenied (name : String)
  | infoFetchFailed (name : String) (version : SemVer)
  | badRecord (name : String) (version : SemVer)
  | outOfFuel (name : String)
deriving DecidableEq, Repr

/-- Whether an abort is the fuel artifact rather than a JS error. -/
def InstallError.isOutOfFuel : InstallError → Bool
  | .outOfFuel _ => true
  | _ => false

/-- The user-visible message of an installer abort, mirroring the
interpolated `Error` messages of src/index.js (chalk color codes, which
only wrap substrings, elided). -/
def InstallError.message : InstallError → String
  | .versionConflict name v c =>
      ("Version conflict for \"" : String) ++ name ++ ("\": " : String) ++
        ("Already resolved version " : String) ++ v.render ++
        (" does not satisfy new constraint " : String) ++ c.render ++ ("." : String)
  | .notFound name =>
      ("Library \"" : String) ++ name ++
        ("\" not found or has no published versions in the registry." : String)
  | .noMatch name c =>
      ("No version found for library \"" : String) ++ name ++
        ("\" that satisfies constraint \"" : String) ++ c.render ++ ("\"." : String)
  | .accessDenied name =>
      ("Access Denied for dependency \"" : String) ++ name ++ ("\"." : String)
  | .infoFetchFailed name v =>
      ("Failed to get version info for " : String) ++ name ++ ("@" : String) ++ v.render
  | .badRecord name v =>
      ("Version " : String) ++ v.render ++ (" of \"" : String) ++ name ++
        ("\" has an invalid or missing IPFS Hash in the registry." : String)
  | .outOfFuel name =>
      ("Fuel exhausted while processing \"" : String) ++ name ++ ("\"." : String)

/-- `resolvedMap.delete(targetName)` on the association-list model. -/
def eraseKey (name : String) (l : List (String × SemVer)) : List (String × SemVer) :=
  l.eraseP (fun p => p.1 == name)

/-- The whitespace class stripped by JS `String.prototype.trim` (the
common members; exotic unicode spaces elided). -/
def isJsSpace (c : Char) : Bool :=
  c == ' ' || c == '\t' || c == '\n' || c == '\r'

/-- JS `s.trim()`: strip leading and trailing whitespace. -/
def jsTrim (s : String) : String :=
  ⟨((s.data.dropWhile isJsSpace).reverse.dropWhile isJsSpace).reverse⟩

/-- JS `s.startsWith(p)`. -/
def jsStartsWith (s p : String) : Bool :=
  p.data.isPrefixOf s.data

/-- The client's basic ipfsHash validation (src/index.js:625):
`!ipfsHash || ipfsHash.trim() === '' || ipfsHash.startsWith('0x0000')`. -/
def invalidIpfsHash (h : String) : Bool :=
  h == ("" : String) || jsTrim h == ("" : String) || jsStartsWith h ("0x0000")

/-- `path.join(installRoot, targetName, versionToInstall)`
(src/index.js:639). -/
def installTargetPath (installRoot name : String) (v : SemVer) : String :=
  installRoot ++ ("/" : String) ++ name ++ ("/" : String) ++ v.render

/-- The per-dependency access gate of src/index.js:577-606: with a local
wallet address the `hasAccess` view must grant access; without one the
client proceeds. -/
def accessGate (reg : Registry) (installer : Option String) (name : String) : Bool :=
  match installer with
  | some addr => reg.hasAccess name addr
  | none => true

/-- The side effects of steps 5-7 of one resolution (src/index.js:628-643)
applied after the resolved map was extended: the deprecation warning when
the record is flagged, then the download/extraction of the archive. -/
def installEffects (installRoot name : String) (chosen : SemVer)
    (rcd : VersionRecord) (s : InstallState) : InstallState :=
  let s2 : InstallState :=
    if rcd.deprecated then
      { s with deprecationWarnings := s.deprecationWarnings ++ [(name, chosen)] }
    else s
  { s2 with downloads := s2.downloads ++
      [(name, chosen, installTargetPath installRoot name chosen)] }

/-- One resolution step of `processInstallation` (src/index.js:535-656),
parameterized by the recursive call used for sub-dependencies:
cycle/conflict check against the resolved map, version fetch and
selection, access gate, marking the resolved map before any side effect,
record fetch with ipfsHash validation (rolling the map entry back on
failure), download/extract, then the sub-dependency loop. -/
def installStep (reg : Registry) (installRoot : String) (installer : Option String)
    (recurse : String → Constraint → InstallState →
      Except (InstallError × InstallState) InstallState)
    (name : String) (constraint : Constraint) (st : InstallState) :
    Except (InstallError × InstallState) InstallState :=
  match st.resolved.lookup name with
  | some v =>
    if satisfies v constraint then .ok st
    else .error (.versionConflict name v constraint, st)
  | none =>
    if (reg.versionNumbers name).isEmpty then .error (.notFound name, st)
    else
      match maxSatisfying (reg.versionNumbers name) constraint with
      | none => .error (.noMatch name constraint, st)
      | some chosen =>
        if !accessGate reg installer name then .error (.accessDenied name, st)
        else
          match reg.versionInfo name chosen with
          | none =>
            .error (.infoFetchFailed name chosen,
              { st with resolved := eraseKey name ((name, chosen) :: st.resolved) })
          | some rcd =>
            if invalidIpfsHash rcd.ipfsHash then
              .error (.badRecord name chosen,
                { st with resolved := eraseKey name ((name, chosen) :: st.resolved) })
            else
              rcd.deps.foldlM (fun s d => recurse d.1 d.2 s)
                (installEffects installRoot name chosen rcd
                  { st with resolved := (name, chosen) :: st.resolved })

/-- `processInstallation(targetName, targetConstraint, resolvedMap,
installRoot, installerPublicAddress)` (src/index.js:535-656), with the
recursion depth bounded by fuel.  On an abort the state reached so far is
carried in the error, matching the JS where the thrown error leaves the
shared `resolvedMap` and the already-extracted directories in place.
IPFS download/extract failures are transport errors of an external
collaborator and are not modelled: a download is recorded in the log. -/
def processInstallation (reg : Registry) (installRoot : String)
    (installer : Option String) :
    Nat → String → Constraint → InstallState →
      Except (InstallError × InstallState) InstallState
  | 0, name, _, st => .error (.outOfFuel name, st)
  | fuel + 1, name, constraint, st =>
    installStep reg installRoot installer
      (fun n2 c2 s2 => processInstallation reg installRoot installer fuel n2 c2 s2)
      name constraint st

/-- The state carried by an installer result: the final state of a
successful run, or the state reached when the abort was thrown (the JS
error leaves `resolvedMap` and the extracted directories as they were at
the throw). -/
def resultState (r : Except (InstallError × InstallState) InstallState) : InstallState :=
  match r with
  | .ok s => s
  | .error e => e.2

/-- Download log and warning log only ever grow along a run. -/
def StateGrowth (s s2 : InstallState) : Prop :=
  (∃ t, s2.downloads = s.downloads ++ t) ∧
    (∃ t, s2.deprecationWarnings = s.deprecationWarnings ++ t)

/-- Names in the download log. -/
def downloadNames (s : InstallState) : List String := s.downloads.map (fun d => d.1)

/-- Run invariant: no name is ever downloaded twice, and every download
was preceded by its resolved-map entry (the JS marks `resolvedMap` before
`downloadAndExtract`, src/index.js:608-643). -/
def InstallInv (s : InstallState) : Prop :=
  (downloadNames s).Nodup ∧ ∀ d ∈ s.downloads, s.resolved.lookup d.1 = some d.2.1

/-- What a successful sub-run preserves: existing resolved-map bindings,
and the run invariant. -/
def InstallPres (s s2 : InstallState) : Prop :=
  (∀ k v, s.resolved.lookup k = some v → s2.resolved.lookup k = some v) ∧
    (InstallInv s → InstallInv s2)

/-- Number of registry names not yet bound in the resolved map; the
termination measure of the recursion. -/
def unresolvedCount (reg : Registry) (st : InstallState) : Nat :=
  (reg.libs.map Prod.fst).countP (fun n => (st.resolved.lookup n).isNone)

/-- JS `s.toLowerCase()` (character-wise; the addresses compared are
ASCII hex strings). -/
def lowerString (s : String) : String := ⟨s.data.map Char.toLower⟩

/-- Failure cases of the latest-stable resolution (src/index.js:1774-1791). -/
inductive LatestError where
  | noVersions
  | noStable
  | unresolvedLatest
deriving DecidableEq, Repr

/-- Latest-stable selection of the `install` command when no version was
given (src/index.js:1771-1798): fetch the version list, drop every
prerelease, require a stable version to remain, then take
`maxSatisfying` against the `*` wildcard constraint. -/
def resolveLatest (available : List SemVer) : Except LatestError SemVer :=
  if available.isEmpty then .error .noVersions
  else
    if (available.filter SemVer.isStable).isEmpty then .error .noStable
    else
      match maxSatisfying (available.filter SemVer.isStable) Constraint.star with
      | some v => .ok v
      | none => .error .unresolvedLatest

/-- Abort causes of the `install` command action. -/
inductive InstallCmdError where
  | topAccessDenied (name : String)
  | latestFailed (e : LatestError)
  | stepFailed (e : InstallError) (st : InstallState)
deriving DecidableEq, Repr

/-- The `install <name>` action without a version specifier
(src/index.js:1707-1842): top-level access gate, latest-stable
resolution, then the recursive resolution rooted at the chosen version,
which is passed to `processInstallation` as the exact top-level
constraint. -/
def installCommandLatest (reg : Registry) (installRoot : String)
    (installer : Option String) (name : String) (fuel : Nat) :
    Except InstallCmdError InstallState :=
  if !accessGate reg installer name then .error (.topAccessDenied name)
  else
    match resolveLatest (reg.versionNumbers name) with
    | .error e => .error (.latestFailed e)
    | .ok chosen =>
      match processInstallation reg installRoot installer fuel name
          (Constraint.exact chosen) initialInstallState with
      | .ok st => .ok st
      | .error (e, st) => .error (.stepFailed e st)

/-- Password acquisition of `loadWalletAndConnect`
(src/index.js:309-333).  With `promptForPassword` the password comes from
the interactive prompt and an empty entry aborts; otherwise a truthy
`TPKM_WALLET_PASSWORD` is used, and a missing or empty variable aborts
(JS truthiness treats the empty string as unset). -/
def acquirePassword (promptForPassword : Bool) (promptInput : String)
    (envPassword : Option String) : Except String String :=
  if promptForPassword then
    if promptInput == ("" : String) then
      .error ("Password cannot be empty. Aborting.")
    else .ok promptInput
  else
    match envPassword with
    | some p =>
      if p == ("" : String) then .error ("Password required for wallet operation.")
      else .ok p
    | none => .error ("Password required for wallet operation.")

/-- Every keystore-decrypting command action calls
`loadWalletAndConnect()` with the default `promptForPassword = true`:
wallet address (src/index.js:1187), register (1282), publish (1541),
deprecate (1918), authorize (2010), revoke (2097), delete (2191),
abandon-registry (2315), set-license (2565), purchase-license (2690). -/
def loadWalletCallFlag : Bool := true

/-- One stored network profile (`networks.json` entry). -/
structure NetworkProfile where
  rpcUrl : String
  contractAddress : String
deriving DecidableEq, Repr

/-- The `~/.tacopkm/networks.json` store. -/
structure NetworkConfig where
  activeNetwork : Option String
  networks : List (String × NetworkProfile)
deriving DecidableEq, Repr

/-- The environment variables `ensureNetworkClientsInitialized` consults. -/
structure EnvVars where
  rpcUrl : Option String
  contractAddress : Option String
  ipfsApiUrl : Option String
deriving DecidableEq, Repr

/-- JS truthiness of an optional string: absent and empty are falsy. -/
def jsTruthy : Option String → Bool
  | none => false
  | some s => !(s == ("" : String))

/-- The effective chain connection settings. -/
structure ChainEndpoints where
  rpc : String
  contractAddr : String
  networkName : String
deriving DecidableEq, Repr

/-- The IPFS fallback endpoint (src/index.js:7). -/
def DEFAULT_IPFS_API_URL : String := "http://127.0.0.1:5001/api/v0"

/-- Environment-variable resolution (priority 2, src/index.js:161-170):
both `RPC_URL` and `CONTRACT_ADDRESS` must be truthy and the address
well-formed (`ethers.isAddress`, passed in as a predicate), else the
endpoints stay unresolved. -/
def envEndpoints (isAddr : String → Bool) (env : EnvVars) : Option ChainEndpoints :=
  match env.rpcUrl, env.contractAddress with
  | some r, some a =>
    if !(r == ("" : String)) && !(a == ("" : String)) && isAddr a then
      some ⟨r, a, ("custom (.env)")⟩
    else none
  | _, _ => none

/-- The profile content validation of src/index.js:150:
`activeProfile.rpcUrl && activeProfile.contractAddress &&
ethers.isAddress(activeProfile.contractAddress)`. -/
def profileValid (isAddr : String → Bool) (p : NetworkProfile) : Bool :=
  !(p.rpcUrl == ("" : String)) && !(p.contractAddress == ("" : String)) &&
    isAddr p.contractAddress

/-- Chain-endpoint precedence of `ensureNetworkClientsInitialized`
(src/index.js:141-193): a valid active profile wins; an existing but
incomplete or invalid active profile prints a warning and falls through
to the environment pair; an `activeNetwork` that names no stored profile
falls through silently; a `none` result makes the command exit with
guidance.  The boolean records whether the invalid-profile warning of
src/index.js:156 was printed. -/
def resolveChainEndpoints (isAddr : String → Bool) (cfg : NetworkConfig)
    (env : EnvVars) : Option ChainEndpoints × Bool :=
  match cfg.activeNetwork with
  | some activeName =>
    if activeName == ("" : String) then (envEndpoints isAddr env, false)
    else
      match cfg.networks.lookup activeName with
      | some p =>
        if profileValid isAddr p then
          (some ⟨p.rpcUrl, p.contractAddress, activeName⟩, false)
        else (envEndpoints isAddr env, true)
      | none => (envEndpoints isAddr env, false)
  | none => (envEndpoints isAddr env, false)

/-- IPFS URL resolution (src/index.js:182-185): truthy environment
override, else the default local API endpoint. -/
def resolveIpfsUrl (env : EnvVars) : String :=
  match env.ipfsApiUrl with
  | some s => if s == ("" : String) then DEFAULT_IPFS_API_URL else s
  | none => DEFAULT_IPFS_API_URL

/-- JS object upsert `config.networks[name] = profile`: replace an
existing key in place, append a new one (JSON object keys are unique). -/
def upsertProfile : List (String × NetworkProfile) → String → NetworkProfile →
    List (String × NetworkProfile)
  | [], k, v => [(k, v)]
  | (k0, v0) :: t, k, v =>
    if k0 == k then (k, v) :: t else (k0, v0) :: upsertProfile t k v

/-- The `config add <name>` action after input validation
(src/index.js:866-877): upsert the profile, then make it active when
`--set-active` was passed, when no active profile is set (JS falsy
test), or when the store holds exactly one profile after the addition
(`Object.keys(config.networks).length === 1`). -/
def configAdd (cfg : NetworkConfig) (name : String) (p : NetworkProfile)
    (setActive : Bool) : NetworkConfig :=
  let networks2 := upsertProfile cfg.networks name p
  if setActive || !(jsTruthy cfg.activeNetwork) || networks2.length == 1 then
    ⟨some name, networks2⟩
  else ⟨cfg.activeNetwork, networks2⟩

/-- `lib.config.json` as the publish action consumes it.  The version
field holds the parsed version when present and semver-valid (the two JS
failure messages for a missing and for a malformed version collapse into
one outcome); dependency constraints are raw strings, validated only
leniently. -/
structure LibConfigFile where
  name : Option String
  version : Option SemVer
  deps : List (String × String)
deriving DecidableEq, Repr

/-- The externally determined inputs of one `publish <directory>` run:
filesystem checks, parsed config, the on-chain owner (absent when
`getLibraryInfo` throws), the signer, and the success of the archive,
upload, transaction and temp-file unlink steps. -/
structure PublishEnv where
  dirOk : Bool
  configFile : Option LibConfigFile
  versionOverride : Option SemVer
  ownerOnChain : Option String
  signerAddr : String
  archiveOk : Bool
  ipfsCid : Option String
  txOk : Bool
  unlinkOk : Bool
deriving DecidableEq, Repr

inductive PublishOutcome where
  | success
  | dirInvalid
  | configUnreadable
  | nameMissing
  | versionMissingOrInvalid
  | ownerCheckFailed
  | notOwner
  | archiveFailed
  | uploadFailed
  | txFailed
deriving DecidableEq, Repr

/-- Observable effects of one publish run: final outcome, whether the
archive was built, uploaded, and the version transaction confirmed, and
whether a temp archive file is left behind after the `finally` block. -/
structure PublishResult where
  outcome : PublishOutcome
  archived : Bool
  uploaded : Bool
  txConfirmed : Bool
  tempFileLeft : Bool
deriving DecidableEq, Repr

/-- The try-block of the `publish <directory>` action
(src/index.js:1556-1684): directory and config validation, the on-chain
ownership pre-check (lowercased address comparison, src/index.js:1613),
archiving, IPFS upload, and the publish transaction.  Returns the
outcome, the archived / uploaded / confirmed flags, and whether the temp
archive file was created (it exists once `createWriteStream` opened it). -/
def publishAttempt (dirOk : Bool) (configFile : Option LibConfigFile)
    (versionOverride : Option SemVer) (ownerOnChain : Option String)
    (signerAddr : String) (archiveOk : Bool) (ipfsCid : Option String)
    (txOk : Bool) : PublishOutcome × Bool × Bool × Bool × Bool :=
  if !dirOk then (.dirInvalid, false, false, false, false)
  else
    match configFile with
    | none => (.configUnreadable, false, false, false, false)
    | some cfg =>
      match cfg.name with
      | none => (.nameMissing, false, false, false, false)
      | some _ =>
        match (match versionOverride with
               | some v => some v
               | none => cfg.version) with
        | none => (.versionMissingOrInvalid, false, false, false, false)
        | some _ =>
          match ownerOnChain with
          | none => (.ownerCheckFailed, false, false, false, false)
          | some owner =>
            if !(lowerString owner == lowerString signerAddr) then
              (.notOwner, false, false, false, false)
            else if !archiveOk then
              (.archiveFailed, false, false, false, true)
            else
              match ipfsCid with
              | none => (.uploadFailed, true, false, false, true)
              | some _ =>
                if !txOk then (.txFailed, true, true, false, true)
                else (.success, true, true, true, true)

/-- The `publish <directory>` action (src/index.js:1534-1697): the
try-block followed by the `finally` cleanup, which unlinks the temp
archive when it exists on every exit path, a failing unlink being logged
but not changing the outcome. -/
def publishRun (env : PublishEnv) : PublishResult :=
  match publishAttempt env.dirOk env.configFile env.versionOverride
      env.ownerOnChain env.signerAddr env.archiveOk env.ipfsCid env.txOk with
  | (outcome, archived, uploaded, confirmed, created) =>
    ⟨outcome, archived, uploaded, confirmed, created && !env.unlinkOk⟩

/-- Inputs of one `purchase-license <name>` run: the library record
fields, the signer, the caller's license status, the parsed `--amount`
option in wei (ethers unit parsing is external; the literal-zero guard of
src/index.js:2740-2743 is the `a = 0` test), and the confirmation. -/
structure PurchaseEnv where
  ownerOnChain : String
  isPrivate : Bool
  licenseFee : Nat
  licenseRequired : Bool
  signerAddr : String
  alreadyHasLicense : Bool
  amountOpt : Option Nat
  confirm : Bool
deriving DecidableEq, Repr

inductive PurchaseOutcome where
  | ownerNoPurchase
  | privateRefused
  | licenseNotRequired
  | alreadyOwned
  | invalidAmount
  | amountBelowFee
  | cancelled
  | txSubmitted
deriving DecidableEq, Repr

/-- Observable result of a purchase run: the outcome, the value (wei) of
the submitted transaction (`none` when no transaction was sent), and
whether the overpayment note was printed. -/
structure PurchaseResult where
  outcome : PurchaseOutcome
  txValue : Option Nat
  overpayWarning : Bool
deriving DecidableEq, Repr

/-- The `purchase-license <name>` action (src/index.js:2683-2797):
owner / private / not-required / already-licensed refusals in order, the
amount defaulting to the exact on-chain fee, rejection of an amount below
the fee, the overpayment warning, the confirmation prompt, then the
payable transaction carrying the amount as its value. -/
def purchaseLicenseRun (env : PurchaseEnv) : PurchaseResult :=
  if lowerString env.signerAddr == lowerString env.ownerOnChain then
    ⟨.ownerNoPurchase, none, false⟩
  else if env.isPrivate then ⟨.privateRefused, none, false⟩
  else if !env.licenseRequired then ⟨.licenseNotRequired, none, false⟩
  else if env.alreadyHasLicense then ⟨.alreadyOwned, none, false⟩
  else
    match (match env.amountOpt with
           | none => some env.licenseFee
           | some a =>
             if a == 0 && decide (0 < env.licenseFee) then none else some a) with
    | none => ⟨.invalidAmount, none, false⟩
    | some amt =>
      if amt < env.licenseFee then ⟨.amountBelowFee, none, false⟩
      else
        if !env.confirm then ⟨.cancelled, none, decide (env.licenseFee < amt)⟩
        else ⟨.txSubmitted, some amt, decide (env.licenseFee < amt)⟩

/-- Inputs of one `deprecate name@version` run after identifier
validation: the on-chain owner (absent when the library is missing), the
signer, the version's deprecated flag (absent when `getVersionInfo`
throws), and the confirmation. -/
structure DeprecateEnv where
  ownerOnChain : Option String
  signerAddr : String
  versionDeprecated : Option Bool
  confirm : Bool
deriving DecidableEq, Repr

inductive DeprecateOutcome where
  | preCheckFailed
  | notOwner
  | alreadyDeprecatedStop
  | cancelled
  | txSubmitted
deriving DecidableEq, Repr

/-- The `deprecate name@version` action (src/index.js:1938-1996):
ownership pre-check, version fetch with the already-deprecated
short-circuit of src/index.js:1953-1957 (which returns before the
confirmation prompt), the confirmation, then the write transaction.  The
boolean records whether a write transaction was submitted. -/
def deprecateRun (env : DeprecateEnv) : DeprecateOutcome × Bool :=
  match env.ownerOnChain with
  | none => (.preCheckFailed, false)
  | some owner =>
    if !(lowerString owner == lowerString env.signerAddr) then (.notOwner, false)
    else
      match env.versionDeprecated with
      | none => (.preCheckFailed, false)
      | some alreadyDeprecated =>
        if alreadyDeprecated then (.alreadyDeprecatedStop, false)
        else if !env.confirm then (.cancelled, false)
        else (.txSubmitted, true)

/-- Concrete versions used by the evaluation fixtures. -/
def ver100 : SemVer := ⟨1, 0, 0, []⟩

def ver110 : SemVer := ⟨1, 1, 0, []⟩

def ver200 : SemVer := ⟨2, 0, 0, []⟩

def ver200beta1 : SemVer := ⟨2, 0, 0, [.str ("beta"), .num 1]⟩

/-- An open registry with no libraries. -/
def regOpenEmpty : Registry := ⟨[], fun _ _ => true⟩

/-- A state in which `lib` is already resolved at 1.0.0. -/
def stateWithLib : InstallState := ⟨[(("lib"), ver100)], [], []⟩

/-- The mutually satisfiable cycle: `liba@1.0.0` depends on
`libb@^1.0.0` and `libb@1.0.0` depends back on `liba@^1.0.0`. -/
def regCycle : Registry :=
  ⟨[(("liba"), [(ver100, ⟨("QmA"), false, [(("libb"), .caret ver100)]⟩)]),
    (("libb"), [(ver100, ⟨("QmB"), false, [(("liba"), .caret ver100)]⟩)])],
   fun _ _ => true⟩

/-- A registry whose only version record carries an empty ipfsHash. -/
def regBadHash : Registry :=
  ⟨[(("lib"), [(ver100, ⟨(""), false, []⟩)])], fun _ _ => true⟩

/-- A registry whose only version record is deprecated but has a valid
ipfsHash. -/
def regDeprecated : Registry :=
  ⟨[(("lib"), [(ver100, ⟨("QmD"), true, []⟩)])], fun _ _ => true⟩

/-- The latest-stable scenario: versions 1.0.0, 1.1.0, 2.0.0-beta.1. -/
def regLatest : Registry :=
  ⟨[(("lib"), [(ver100, ⟨("Qm1"), false, []⟩), (ver110, ⟨("Qm2"), false, []⟩),
               (ver200beta1, ⟨("Qm3"), false, []⟩)])], fun _ _ => true⟩

/-- A publish run whose on-chain owner differs from the signer and where
every later stage would succeed. -/
def pubEnvMismatch : PublishEnv :=
  ⟨true, some ⟨some ("foo"), some ver100, []⟩, none, some ("0xAB"), ("0xCD"),
   true, some ("QmX"), true, true⟩

/-- A license purchase with no `--amount`: fee 0.01 ETH in wei, license
required, caller neither owner nor already licensed. -/
def purEnvExactFee : PurchaseEnv :=
  ⟨("0xOwner"), false, 10000000000000000, true, ("0xBuyer"), false, none, true⟩

/-- A deprecate run whose version record is already deprecated and whose
caller is the owner (checksum-cased vs lowercased address). -/
def depEnvAlready : DeprecateEnv := ⟨some ("0xAB"), ("0xab"), some true, true⟩

theorem preIdLt_irrefl (a : PreId) : PreId.precLt a a = false := by
  cases a with
  | num n => simp [PreId.precLt]
  | str s => simp [PreId.precLt]

theorem preIdLt_trans {a b c : PreId} (h1 : PreId.precLt a b = true)
    (h2 : PreId.precLt b c = true) : PreId.precLt a c = true := by
  cases a <;> cases b <;> cases c <;> simp_all [PreId.precLt]
  case num.num.num => omega
  case str.str.str => exact lt_trans h1 h2

theorem preIdLt_eq_of_not {a b : PreId} (h1 : PreId.precLt a b = false)
    (h2 : PreId.precLt b a = false) : a = b := by
  cases a <;> cases b <;> simp_all [PreId.precLt]
  case num.num => omega
  case str.str => exact String.ext (le_antisymm h2 h1)

theorem preListLt_irrefl (l : List PreId) : preListLt l l = false := by
  induction l with
  | nil => rfl
  | cons a t ih => simp [preListLt, ih]

theorem preListLt_trans {x y z : List PreId} (h1 : preListLt x y = true)
    (h2 : preListLt y z = true) : preListLt x z = true := by
  induction x generalizing y z with
  | nil =>
    cases y with
    | nil => simp [preListLt] at h1
    | cons b bs =>
      cases z with
      | nil => simp [preListLt] at h2
      | cons c cs => simp [preListLt]
  | cons a as ih =>
    cases y with
    | nil => simp [preListLt] at h1
    | cons b bs =>
      cases z with
      | nil => simp [preListLt] at h2
      | cons c cs =>
        by_cases eab : a = b
        · subst eab
          by_cases ebc : a = c
          · subst ebc
            simp [preListLt] at h1 h2 ⊢
            exact ih h1 h2
          · simp [preListLt, ebc] at h1 h2 ⊢
            exact h2
        · by_cases ebc : b = c
          · subst ebc
            simp [preListLt, eab] at h1 h2 ⊢
            exact h1
          · simp [preListLt, eab, ebc] at h1 h2
            have hac : PreId.precLt a c = true := preIdLt_trans h1 h2
            have eac : a ≠ c := by
              intro e
              subst e
              have : PreId.precLt a a = true := preIdLt_trans h1 h2
              rw [preIdLt_irrefl] at this
              exact Bool.false_ne_true this
            simp [preListLt, eac, hac]

theorem preListLt_eq_of_not {x y : List PreId} (h1 : preListLt x y = false)
    (h2 : preListLt y x = false) : x = y := by
  induction x generalizing y with
  | nil =>
    cases y with
    | nil => rfl
    | cons b bs => simp [preListLt] at h1
  | cons a as ih =>
    cases y with
    | nil => simp [preListLt] at h2
    | cons b bs =>
      by_cases eab : a = b
      · subst eab
        simp [preListLt] at h1 h2
        rw [ih h1 h2]
      · simp [preListLt, eab, Ne.symm eab] at h1 h2
        exact absurd (preIdLt_eq_of_not h1 h2) eab

theorem preStageLt_irrefl (l : List PreId) : preStageLt l l = false := by
  cases l with
  | nil => rfl
  | cons a t => simpa [preStageLt] using preListLt_irrefl (a :: t)

theorem preStageLt_trans {x y z : List PreId} (h1 : preStageLt x y = true)
    (h2 : preStageLt y z = true) : preStageLt x z = true := by
  cases x with
  | nil =>
    cases y with
    | nil => simp [preStageLt] at h1
    | cons b bs =>
      cases z with
      | nil => simp [preStageLt] at h1
      | cons c cs => simp [preStageLt] at h1
  | cons a as =>
    cases y with
    | nil => simp [preStageLt] at h2
    | cons b bs =>
      cases z with
      | nil => simp [preStageLt]
      | cons c cs =>
        simp only [preStageLt] at h1 h2 ⊢
        exact preListLt_trans h1 h2

theorem preStageLt_eq_of_not {x y : List PreId} (h1 : preStageLt x y = false)
    (h2 : preStageLt y x = false) : x = y := by
  cases x with
  | nil =>
    cases y with
    | nil => rfl
    | cons b bs => simp [preStageLt] at h2
  | cons a as =>
    cases y with
    | nil => simp [preStageLt] at h1
    | cons b bs =>
      simp only [preStageLt] at h1 h2
      exact preListLt_eq_of_not h1 h2

theorem SemVer.precLt_iff {v w : SemVer} : SemVer.precLt v w = true ↔
    (v.major < w.major ∨ (v.major = w.major ∧ (v.minor < w.minor ∨
      (v.minor = w.minor ∧ (v.patch < w.patch ∨
        (v.patch = w.patch ∧ preStageLt v.pre w.pre = true)))))) := by
  simp [SemVer.precLt]

theorem semverLt_irrefl (v : SemVer) : SemVer.precLt v v = false := by
  simp [SemVer.precLt, preStageLt_irrefl]

theorem semverLt_trans {u v w : SemVer} (h1 : SemVer.precLt u v = true)
    (h2 : SemVer.precLt v w = true) : SemVer.precLt u w = true := by
  rw [SemVer.precLt_iff] at h1 h2 ⊢
  rcases h1 with m1 | ⟨e1, n1 | ⟨f1, p1 | ⟨g1, q1⟩⟩⟩ <;>
    rcases h2 with m2 | ⟨e2, n2 | ⟨f2, p2 | ⟨g2, q2⟩⟩⟩
  · exact Or.inl (by omega)
  · exact Or.inl (by omega)
  · exact Or.inl (by omega)
  · exact Or.inl (by omega)
  · exact Or.inl (by omega)
  · exact Or.inr ⟨by omega, Or.inl (by omega)⟩
  · exact Or.inr ⟨by omega, Or.inl (by omega)⟩
  · exact Or.inr ⟨by omega, Or.inl (by omega)⟩
  · exact Or.inl (by omega)
  · exact Or.inr ⟨by omega, Or.inl (by omega)⟩
  · exact Or.inr ⟨by omega, Or.inr ⟨by omega, Or.inl (by omega)⟩⟩
  · exact Or.inr ⟨by omega, Or.inr ⟨by omega, Or.inl (by omega)⟩⟩
  · exact Or.inl (by omega)
  · exact Or.inr ⟨by omega, Or.inl (by omega)⟩
  · exact Or.inr ⟨by omega, Or.inr ⟨by omega, Or.inl (by omega)⟩⟩
  · exact Or.inr ⟨by omega, Or.inr ⟨by omega, Or.inr
      ⟨by omega, preStageLt_trans q1 q2⟩⟩⟩

theorem semverLt_eq_of_not {v w : SemVer} (h1 : SemVer.precLt v w = false)
    (h2 : SemVer.precLt w v = false) : v = w := by
  have h1a : ¬ (SemVer.precLt v w = true) := by simp [h1]
  have h2a : ¬ (SemVer.precLt w v = true) := by simp [h2]
  rw [SemVer.precLt_iff] at h1a h2a
  push_neg at h1a h2a
  have em : v.major = w.major := by omega
  have h1b := (h1a.2 em)
  have h2b := (h2a.2 em.symm)
  have en : v.minor = w.minor := by omega
  have h1c := (h1b.2 en)
  have h2c := (h2b.2 en.symm)
  have ep : v.patch = w.patch := by omega
  have h1d := (h1c.2 ep)
  have h2d := (h2c.2 ep.symm)
  have epre : v.pre = w.pre := by
    refine preStageLt_eq_of_not ?_ ?_
    · cases hx : preStageLt v.pre w.pre with
      | false => rfl
      | true => exact absurd hx h1d
    · cases hx : preStageLt w.pre v.pre with
      | false => rfl
      | true => exact absurd hx h2d
  cases v
  cases w
  simp_all

theorem maxOfList_aux (l : List SemVer) (a : SemVer) :
    ∃ m, l.foldl (fun acc v =>
        match acc with
        | none => some v
        | some m => if SemVer.precLt m v then some v else some m) (some a) = some m ∧
      (m = a ∨ m ∈ l) ∧ SemVer.precLt m a = false ∧
      ∀ w ∈ l, SemVer.precLt m w = false := by
  induction l generalizing a with
  | nil => exact ⟨a, rfl, Or.inl rfl, semverLt_irrefl a, by simp⟩
  | cons v t ih =>
    by_cases hav : SemVer.precLt a v = true
    · obtain ⟨m, hfold, hmem, hma, hall⟩ := ih v
      refine ⟨m, by simpa [hav] using hfold, ?_, ?_, ?_⟩
      · rcases hmem with h | h
        · exact Or.inr (by simp [h])
        · exact Or.inr (by simp [h])
      · cases hma2 : SemVer.precLt m a with
        | false => rfl
        | true =>
          have : SemVer.precLt m v = true := semverLt_trans hma2 hav
          rw [hma] at this
          exact this.symm
      · intro w hw
        rcases List.mem_cons.mp hw with h | h
        · exact h ▸ hma
        · exact hall w h
    · have hav2 : SemVer.precLt a v = false := by
        cases h : SemVer.precLt a v with
        | false => rfl
        | true => exact absurd h hav
      obtain ⟨m, hfold, hmem, hma, hall⟩ := ih a
      have hmv : SemVer.precLt m v = false := by
        cases hva : SemVer.precLt v a with
        | true =>
          cases hmw : SemVer.precLt m v with
          | false => rfl
          | true =>
            have : SemVer.precLt m a = true := semverLt_trans hmw hva
            rw [hma] at this
            exact this.symm
        | false =>
          have : a = v := semverLt_eq_of_not hav2 hva
          rw [← this]
          exact hma
      refine ⟨m, by simpa [hav2] using hfold, ?_, hma, ?_⟩
      · rcases hmem with h | h
        · exact Or.inl h
        · exact Or.inr (by simp [h])
      · intro w hw
        rcases List.mem_cons.mp hw with h | h
        · exact h ▸ hmv
        · exact hall w h

theorem maxOfList_spec {l : List SemVer} {m : SemVer} (h : maxOfList l = some m) :
    m ∈ l ∧ ∀ w ∈ l, SemVer.precLt m w = false := by
  cases l with
  | nil => simp [maxOfList] at h
  | cons v t =>
    obtain ⟨m2, hfold, hmem, hma, hall⟩ := maxOfList_aux t v
    have h2 : maxOfList (v :: t) = some m2 := by simpa [maxOfList] using hfold
    rw [h] at h2
    obtain rfl : m2 = m := by
      injection h2 with h3
      exact h3.symm
    constructor
    · rcases hmem with h | h
      · exact h ▸ List.mem_cons_self v t
      · exact List.mem_cons_of_mem v h
    · intro w hw
      rcases List.mem_cons.mp hw with h | h
      · exact h ▸ hma
      · exact hall w h

theorem maxOfList_isSome {l : List SemVer} (h : l ≠ []) :
    (maxOfList l).isSome = true := by
  cases l with
  | nil => exact absurd rfl h
  | cons v t =>
    obtain ⟨m2, hfold, _, _, _⟩ := maxOfList_aux t v
    simp [maxOfList, hfold]

theorem maxSatisfying_spec {vs : List SemVer} {c : Constraint} {m : SemVer}
    (h : maxSatisfying vs c = some m) :
    m ∈ vs ∧ satisfies m c = true ∧
      ∀ w ∈ vs, satisfies w c = true → SemVer.precLt m w = false := by
  obtain ⟨hmem, hall⟩ := maxOfList_spec h
  obtain ⟨hin, hsat⟩ := List.mem_filter.mp hmem
  exact ⟨hin, hsat, fun w hw hs => hall w (List.mem_filter.mpr ⟨hw, hs⟩)⟩

theorem stateGrowth_refl (s : InstallState) : StateGrowth s s :=
  ⟨⟨[], by simp⟩, ⟨[], by simp⟩⟩

theorem stateGrowth_trans {a b c : InstallState} (h1 : StateGrowth a b)
    (h2 : StateGrowth b c) : StateGrowth a c := by
  obtain ⟨⟨t1, e1⟩, ⟨w1, f1⟩⟩ := h1
  obtain ⟨⟨t2, e2⟩, ⟨w2, f2⟩⟩ := h2
  exact ⟨⟨t1 ++ t2, by simp [e2, e1]⟩, ⟨w1 ++ w2, by simp [f2, f1]⟩⟩

theorem foldlM_resultState_chain
    (f : InstallState → String × Constraint →
      Except (InstallError × InstallState) InstallState)
    (P : InstallState → InstallState → Prop)
    (hrefl : ∀ s, P s s)
    (htrans : ∀ a b c, P a b → P b c → P a c)
    (hf : ∀ s d, P s (resultState (f s d))) :
    ∀ (l : List (String × Constraint)) (st : InstallState),
      P st (resultState (l.foldlM f st)) := by
  intro l
  induction l with
  | nil =>
    intro st
    simpa [List.foldlM_nil, resultState] using hrefl st
  | cons d t ih =>
    intro st
    rw [List.foldlM_cons]
    cases hfd : f st d with
    | ok s2 =>
      have h1 : P st s2 := by
        have := hf st d
        rw [hfd] at this
        exact this
      exact htrans _ _ _ h1 (ih s2)
    | error e =>
      have h1 : P st e.2 := by
        have := hf st d
        rw [hfd] at this
        exact this
      exact h1

theorem foldlM_ok_chain
    (f : InstallState → String × Constraint →
      Except (InstallError × InstallState) InstallState)
    (P : InstallState → InstallState → Prop)
    (hrefl : ∀ s, P s s)
    (htrans : ∀ a b c, P a b → P b c → P a c)
    (hf : ∀ s d s2, f s d = .ok s2 → P s s2) :
    ∀ (l : List (String × Constraint)) (st s2 : InstallState),
      l.foldlM f st = .ok s2 → P st s2 := by
  intro l
  induction l with
  | nil =>
    intro st s2 h
    rw [List.foldlM_nil] at h
    cases h
    exact hrefl st
  | cons d t ih =>
    intro st s2 h
    rw [List.foldlM_cons] at h
    cases hfd : f st d with
    | ok smid =>
      rw [hfd] at h
      have h2 : t.foldlM f smid = .ok s2 := h
      exact htrans _ _ _ (hf st d smid hfd) (ih smid s2 h2)
    | error e =>
      rw [hfd] at h
      have h2 : (Except.error e : Except (InstallError × InstallState) InstallState)
          = .ok s2 := h
      cases h2

theorem foldlM_error_shape
    (f : InstallState → String × Constraint →
      Except (InstallError × InstallState) InstallState)
    (Q : InstallState → Prop)
    (hf : ∀ s d, Q s →
      (∀ e, f s d = .error e → e.1.isOutOfFuel = false) ∧
      (∀ s2, f s d = .ok s2 → Q s2)) :
    ∀ (l : List (String × Constraint)) (st : InstallState), Q st →
      ∀ e, l.foldlM f st = .error e → e.1.isOutOfFuel = false := by
  intro l
  induction l with
  | nil =>
    intro st _ e h
    rw [List.foldlM_nil] at h
    cases h
  | cons d t ih =>
    intro st hq e h
    rw [List.foldlM_cons] at h
    cases hfd : f st d with
    | ok smid =>
      rw [hfd] at h
      exact ih smid ((hf st d hq).2 smid hfd) e h
    | error e2 =>
      rw [hfd] at h
      have h2 : (Except.error e2 : Except (InstallError × InstallState) InstallState)
          = .error e := h
      cases h2
      exact (hf st d hq).1 e hfd

theorem processInstallation_zero (reg : Registry) (root : String)
    (inst : Option String) (name : String) (c : Constraint) (st : InstallState) :
    processInstallation reg root inst 0 name c st = .error (.outOfFuel name, st) := rfl

theorem processInstallation_succ (reg : Registry) (root : String)
    (inst : Option String) (fuel : Nat) (name : String) (c : Constraint)
    (st : InstallState) :
    processInstallation reg root inst (fuel + 1) name c st
      = installStep reg root inst
          (fun n2 c2 s2 => processInstallation reg root inst fuel n2 c2 s2)
          name c st := rfl

theorem installEffects_resolved (root name : String) (chosen : SemVer)
    (rcd : VersionRecord) (s : InstallState) :
    (installEffects root name chosen rcd s).resolved = s.resolved := by
  unfold installEffects
  cases rcd.deprecated <;> simp

theorem installEffects_downloads (root name : String) (chosen : SemVer)
    (rcd : VersionRecord) (s : InstallState) :
    (installEffects root name chosen rcd s).downloads
      = s.downloads ++ [(name, chosen, installTargetPath root name chosen)] := by
  unfold installEffects
  cases rcd.deprecated <;> simp

theorem installEffects_warnings (root name : String) (chosen : SemVer)
    (rcd : VersionRecord) (s : InstallState) :
    (installEffects root name chosen rcd s).deprecationWarnings
      = s.deprecationWarnings ++ (if rcd.deprecated then [(name, chosen)] else []) := by
  unfold installEffects
  cases rcd.deprecated <;> simp

theorem installStep_growth (reg : Registry) (root : String) (inst : Option String)
    (recurse : String → Constraint → InstallState →
      Except (InstallError × InstallState) InstallState)
    (hrec : ∀ n c s, StateGrowth s (resultState (recurse n c s)))
    (name : String) (c : Constraint) (st : InstallState) :
    StateGrowth st (resultState (installStep reg root inst recurse name c st)) := by
  unfold installStep
  cases hres : st.resolved.lookup name with
  | some v =>
    by_cases hsat : satisfies v c = true
    · simp only [hsat, if_true]
      exact stateGrowth_refl st
    · simp only [hsat, if_false]
      exact stateGrowth_refl st
  | none =>
    by_cases hemp : (reg.versionNumbers name).isEmpty = true
    · simp only [hemp, if_true]
      exact stateGrowth_refl st
    · simp only [hemp, if_false]
      cases hmax : maxSatisfying (reg.versionNumbers name) c with
      | none => exact stateGrowth_refl st
      | some chosen =>
        by_cases hacc : accessGate reg inst name = true
        · simp only [hacc, Bool.not_true, if_false, Bool.false_eq_true]
          cases hinfo : reg.versionInfo name chosen with
          | none => exact stateGrowth_refl st
          | some rcd =>
            by_cases hbad : invalidIpfsHash rcd.ipfsHash = true
            · simp only [hbad, if_true]
              exact stateGrowth_refl st
            · simp only [hbad, if_false]
              refine stateGrowth_trans ?_
                (foldlM_resultState_chain _ StateGrowth stateGrowth_refl
                  (fun _ _ _ => stateGrowth_trans)
                  (fun s d => hrec d.1 d.2 s) rcd.deps _)
              constructor
              · exact ⟨[(name, chosen, installTargetPath root name chosen)],
                  by rw [installEffects_downloads]⟩
              · exact ⟨(if rcd.deprecated then [(name, chosen)] else []),
                  by rw [installEffects_warnings]⟩
        · simp only [hacc]
          simp only [Bool.not_false, if_true]
          exact stateGrowth_refl st

theorem processInstallation_growth (reg : Registry) (root : String)
    (inst : Option String) :
    ∀ (fuel : Nat) (name : String) (c : Constraint) (st : InstallState),
      StateGrowth st (resultState (processInstallation reg root inst fuel name c st)) := by
  intro fuel
  induction fuel with
  | zero =>
    intro name c st
    rw [processInstallation_zero]
    exact stateGrowth_refl st
  | succ fuel ih =>
    intro name c st
    rw [processInstallation_succ]
    exact installStep_growth reg root inst _ (fun n c2 s => ih n c2 s) name c st

theorem installPres_refl (s : InstallState) : InstallPres s s :=
  ⟨fun _ _ h => h, id⟩

theorem installPres_trans {a b c : InstallState} (h1 : InstallPres a b)
    (h2 : InstallPres b c) : InstallPres a c :=
  ⟨fun k v h => h2.1 k v (h1.1 k v h), fun h => h2.2 (h1.2 h)⟩

theorem installStep_pres_start (root name : String)
    (chosen : SemVer) (rcd : VersionRecord) (st : InstallState)
    (hres : st.resolved.lookup name = none) :
    InstallPres st
      (installEffects root name chosen rcd
        { st with resolved := (name, chosen) :: st.resolved }) := by
  constructor
  · intro k v hk
    rw [installEffects_resolved]
    have hkname : (k == name) = false := by
      by_cases e : k = name
      · subst e
        rw [hres] at hk
        cases hk
      · simp [e]
    simp only [List.lookup_cons, hkname]
    exact hk
  · intro hinv
    have hnotin : name ∉ downloadNames st := by
      intro hmem
      obtain ⟨d, hd, hd1⟩ := List.mem_map.mp hmem
      have := hinv.2 d hd
      rw [hd1] at this
      rw [hres] at this
      cases this
    constructor
    · show (downloadNames (installEffects root name chosen rcd
        { st with resolved := (name, chosen) :: st.resolved })).Nodup
      unfold downloadNames
      rw [installEffects_downloads]
      rw [List.map_append, List.nodup_append]
      refine ⟨hinv.1, by simp, ?_⟩
      intro a ha hb
      simp at hb
      subst hb
      exact hnotin ha
    · intro d hd
      rw [installEffects_resolved]
      rw [installEffects_downloads] at hd
      rcases List.mem_append.mp hd with hold | hnew
      · have hd1 : (d.1 == name) = false := by
          by_cases e : d.1 = name
          · exfalso
            apply hnotin
            exact e ▸ List.mem_map.mpr ⟨d, hold, rfl⟩
          · simp [e]
        simp only [List.lookup_cons, hd1]
        exact hinv.2 d hold
      · simp at hnew
        obtain rfl : d = (name, chosen, installTargetPath root name chosen) := hnew
        simp [List.lookup_cons]

theorem installStep_okPres (reg : Registry) (root : String) (inst : Option String)
    (recurse : String → Constraint → InstallState →
      Except (InstallError × InstallState) InstallState)
    (hrec : ∀ n c s s2, recurse n c s = .ok s2 → InstallPres s s2)
    (name : String) (c : Constraint) (st s2 : InstallState)
    (h : installStep reg root inst recurse name c st = .ok s2) :
    InstallPres st s2 := by
  unfold installStep at h
  cases hres : st.resolved.lookup name with
  | some v =>
    rw [hres] at h
    by_cases hsat : satisfies v c = true
    · simp only [hsat, if_true] at h
      cases h
      exact installPres_refl st
    · simp only [hsat, if_false] at h
      cases h
  | none =>
    rw [hres] at h
    by_cases hemp : (reg.versionNumbers name).isEmpty = true
    · simp only [hemp, if_true] at h
      cases h
    · simp only [hemp, if_false] at h
      cases hmax : maxSatisfying (reg.versionNumbers name) c with
      | none =>
        rw [hmax] at h
        cases h
      | some chosen =>
        rw [hmax] at h
        by_cases hacc : accessGate reg inst name = true
        · simp only [hacc, Bool.not_true, if_false, Bool.false_eq_true] at h
          cases hinfo : reg.versionInfo name chosen with
          | none =>
            rw [hinfo] at h
            cases h
          | some rcd =>
            rw [hinfo] at h
            by_cases hbad : invalidIpfsHash rcd.ipfsHash = true
            · simp only [hbad, if_true] at h
              cases h
            · simp only [hbad, if_false] at h
              refine installPres_trans
                (installStep_pres_start root name chosen rcd st hres) ?_
              exact foldlM_ok_chain _ InstallPres installPres_refl
                (fun _ _ _ => installPres_trans)
                (fun s d s3 hd => hrec d.1 d.2 s s3 hd) rcd.deps _ s2 h
        · simp only [hacc, Bool.not_false, if_true] at h
          cases h

theorem processInstallation_okPres (reg : Registry) (root : String)
    (inst : Option String) :
    ∀ (fuel : Nat) (name : String) (c : Constraint) (st s2 : InstallState),
      processInstallation reg root inst fuel name c st = .ok s2 →
        InstallPres st s2 := by
  intro fuel
  induction fuel with
  | zero =>
    intro name c st s2 h
    rw [processInstallation_zero] at h
    cases h
  | succ fuel ih =>
    intro name c st s2 h
    rw [processInstallation_succ] at h
    exact installStep_okPres reg root inst _
      (fun n c2 s s3 hh => ih n c2 s s3 hh) name c st s2 h

theorem countP_le_countP {α : Type} {p q : α → Bool} (l : List α)
    (h : ∀ a ∈ l, p a = true → q a = true) : l.countP p ≤ l.countP q := by
  induction l with
  | nil => simp
  | cons a t ih =>
    rw [List.countP_cons, List.countP_cons]
    have ht := ih (fun x hx hp => h x (List.mem_cons_of_mem a hx) hp)
    by_cases hpa : p a = true
    · have hqa := h a (List.mem_cons_self a t) hpa
      simp [hpa, hqa]
      omega
    · have : p a = false := by
        cases hv : p a with
        | false => rfl
        | true => exact absurd hv hpa
      simp [this]
      by_cases hqa : q a = true <;> simp [hqa] <;> omega

theorem countP_lt_of_flip {α : Type} {p q : α → Bool} {l : List α} {a : α}
    (hmem : a ∈ l) (hpa : p a = true) (hqa : q a = false)
    (himp : ∀ x, q x = true → p x = true) : l.countP q < l.countP p := by
  induction l with
  | nil => cases hmem
  | cons b t ih =>
    rw [List.countP_cons, List.countP_cons]
    rcases List.mem_cons.mp hmem with hba | hat
    · subst hba
      have hle : t.countP q ≤ t.countP p :=
        countP_le_countP t (fun x _ hx => himp x hx)
      simp [hpa, hqa]
      omega
    · have hlt := ih hat
      by_cases hqb : q b = true
      · have hpb := himp b hqb
        simp [hqb, hpb]
        omega
      · have : q b = false := by
          cases hv : q b with
          | false => rfl
          | true => exact absurd hv hqb
        simp [this]
        by_cases hpb : p b = true <;> simp [hpb] <;> omega

theorem mem_keys_of_lookup {α β : Type} [BEq α] [LawfulBEq α]
    {l : List (α × β)} {a : α} {b : β} (h : l.lookup a = some b) :
    a ∈ l.map Prod.fst := by
  induction l with
  | nil => cases h
  | cons kv t ih =>
    rw [List.lookup_cons] at h
    cases hak : a == kv.1 with
    | true =>
      have : a = kv.1 := eq_of_beq hak
      simp [this]
    | false =>
      have h2 : t.lookup a = some b := by
        cases kv with
        | mk k v =>
          simp only at hak
          rw [hak] at h
          exact h
      exact List.mem_cons_of_mem _ (ih h2)

theorem unresolvedCount_lt (reg : Registry) {st : InstallState} {name : String}
    (chosen : SemVer) (s2 : InstallState)
    (hres : st.resolved.lookup name = none)
    (hmem : name ∈ reg.libs.map Prod.fst)
    (hs2 : s2.resolved = (name, chosen) :: st.resolved) :
    unresolvedCount reg s2 < unresolvedCount reg st := by
  unfold unresolvedCount
  refine countP_lt_of_flip hmem ?_ ?_ ?_
  · simp [hres]
  · simp [hs2, List.lookup_cons]
  · intro x hx
    rw [hs2] at hx
    rw [List.lookup_cons] at hx
    cases hxe : x == name with
    | true =>
      rw [hxe] at hx
      simp at hx
    | false =>
      rw [hxe] at hx
      exact hx

theorem unresolvedCount_le_of_pres (reg : Registry) {st s2 : InstallState}
    (hpres : ∀ k v, st.resolved.lookup k = some v → s2.resolved.lookup k = some v) :
    unresolvedCount reg s2 ≤ unresolvedCount reg st := by
  unfold unresolvedCount
  refine countP_le_countP _ ?_
  intro a _ h2
  cases hv : st.resolved.lookup a with
  | none => simp
  | some v =>
    have := hpres a v hv
    rw [this] at h2
    simp at h2

theorem processInstallation_noOutOfFuel (reg : Registry) (root : String)
    (inst : Option String) :
    ∀ (fuel : Nat) (name : String) (c : Constraint) (st : InstallState),
      unresolvedCount reg st < fuel →
      ∀ e, processInstallation reg root inst fuel name c st = .error e →
        e.1.isOutOfFuel = false := by
  intro fuel
  induction fuel with
  | zero =>
    intro name c st hcount
    exact absurd hcount (Nat.not_lt_zero _)
  | succ fuel ih =>
    intro name c st hcount e h
    rw [processInstallation_succ] at h
    unfold installStep at h
    cases hres : st.resolved.lookup name with
    | some v =>
      rw [hres] at h
      by_cases hsat : satisfies v c = true
      · simp only [hsat, if_true] at h
        cases h
      · simp only [hsat, if_false] at h
        cases h
        rfl
    | none =>
      rw [hres] at h
      by_cases hemp : (reg.versionNumbers name).isEmpty = true
      · simp only [hemp, if_true] at h
        cases h
        rfl
      · simp only [hemp, if_false] at h
        cases hmax : maxSatisfying (reg.versionNumbers name) c with
        | none =>
          rw [hmax] at h
          cases h
          rfl
        | some chosen =>
          rw [hmax] at h
          by_cases hacc : accessGate reg inst name = true
          · simp only [hacc, Bool.not_true, if_false, Bool.false_eq_true] at h
            cases hinfo : reg.versionInfo name chosen with
            | none =>
              rw [hinfo] at h
              cases h
              rfl
            | some rcd =>
              rw [hinfo] at h
              by_cases hbad : invalidIpfsHash rcd.ipfsHash = true
              · simp only [hbad, if_true] at h
                cases h
                rfl
              · simp only [hbad, if_false] at h
                have hmemk : name ∈ reg.libs.map Prod.fst := by
                  have hne : reg.versionNumbers name ≠ [] := by
                    intro hnil
                    rw [hnil] at hemp
                    exact hemp rfl
                  unfold Registry.versionNumbers at hne
                  cases hlk : reg.libs.lookup name with
                  | none =>
                    rw [hlk] at hne
                    exact absurd rfl hne
                  | some entries => exact mem_keys_of_lookup hlk
                have hq : unresolvedCount reg
                    (installEffects root name chosen rcd
                      { st with resolved := (name, chosen) :: st.resolved }) < fuel := by
                  have hdec := unresolvedCount_lt reg chosen
                    (installEffects root name chosen rcd
                      { st with resolved := (name, chosen) :: st.resolved })
                    hres hmemk (by rw [installEffects_resolved])
                  omega
                refine foldlM_error_shape _
                  (fun s => unresolvedCount reg s < fuel) ?_ rcd.deps _ hq e h
                intro s d hqs
                constructor
                · intro e2 he2
                  exact ih d.1 d.2 s hqs e2 he2
                · intro s3 hs3
                  have hpres := processInstallation_okPres reg root inst fuel d.1 d.2 s s3 hs3
                  have := unresolvedCount_le_of_pres reg hpres.1
                  omega
          · simp only [hacc, Bool.not_false, if_true] at h
            cases h
            rfl

/-- C1: For every recursive resolution step of an install run in which
the resolved set already contains an entry for the requested library
name: if the recorded version satisfies the new constraint, the step
returns with no download, no extraction, and no change to the resolved
set (the state is returned unchanged); if it does not satisfy it, the
step aborts with a version-conflict error that carries the recorded
version and the constraint, whose rendered message contains both, and
whose carried state is the unchanged input state, so no library beyond
the conflict point is downloaded or extracted. -/
theorem C1_resolved_entry_step (reg : Registry) (root : String)
    (inst : Option String) (fuel : Nat) (name : String) (c : Constraint)
    (st : InstallState) (v : SemVer)
    (hres : st.resolved.lookup name = some v) :
    (satisfies v c = true →
      processInstallation reg root inst (fuel + 1) name c st = .ok st) ∧
    (satisfies v c = false →
      processInstallation reg root inst (fuel + 1) name c st
        = .error (.versionConflict name v c, st) ∧
      ∃ s1 s2 s3, (InstallError.versionConflict name v c).message
        = s1 ++ v.render ++ s2 ++ c.render ++ s3) := by
  rw [processInstallation_succ]
  unfold installStep
  rw [hres]
  constructor
  · intro hsat
    simp [hsat]
  · intro hsat
    refine ⟨by simp [hsat], ?_⟩
    refine ⟨("Version conflict for \"" : String) ++ name ++ ("\": " : String) ++
      ("Already resolved version " : String),
      (" does not satisfy new constraint " : String), ("." : String), ?_⟩
    unfold InstallError.message
    rfl

/-- Witness for C1 at a concrete input: with `lib` recorded at 1.0.0, the
step for constraint 1.0.0 returns the state unchanged and the step for
constraint 2.0.0 aborts with the version conflict carrying the unchanged
state. -/
theorem C1_resolved_entry_step_witness :
    processInstallation regOpenEmpty ("tpkm_installed_libs") none 1 ("lib")
        (Constraint.exact ver100) stateWithLib = .ok stateWithLib ∧
    processInstallation regOpenEmpty ("tpkm_installed_libs") none 1 ("lib")
        (Constraint.exact ver200) stateWithLib
      = .error (.versionConflict ("lib") ver100 (Constraint.exact ver200),
          stateWithLib) :=
  ⟨(C1_resolved_entry_step regOpenEmpty ("tpkm_installed_libs") none 0 ("lib")
      (Constraint.exact ver100) stateWithLib ver100 (by decide)).1 (by decide),
   ((C1_resolved_entry_step regOpenEmpty ("tpkm_installed_libs") none 0 ("lib")
      (Constraint.exact ver200) stateWithLib ver100 (by decide)).2 (by decide)).1⟩

/-- C2: For every dependency graph and install run started on the empty
resolved set with fuel exceeding the number of registry names, the run
never hits the fuel bound (the JS recursion terminates, because the
resolved set records the chosen version before the download side effect
and before recursing), and on success every library name appears at most
once in the download/extraction log, each download preceded by its
resolved-set entry. -/
theorem C2_cycle_termination_and_single_download (reg : Registry)
    (root : String) (inst : Option String) (name : String) (c : Constraint)
    (fuel : Nat) (hfuel : unresolvedCount reg initialInstallState < fuel) :
    (∀ e, processInstallation reg root inst fuel name c initialInstallState
        = .error e → e.1.isOutOfFuel = false) ∧
    (∀ s, processInstallation reg root inst fuel name c initialInstallState
        = .ok s → (downloadNames s).Nodup ∧
          ∀ d ∈ s.downloads, s.resolved.lookup d.1 = some d.2.1) := by
  constructor
  · intro e h
    exact processInstallation_noOutOfFuel reg root inst fuel name c
      initialInstallState hfuel e h
  · intro s hok
    have hpres := processInstallation_okPres reg root inst fuel name c
      initialInstallState s hok
    have hinv : InstallInv initialInstallState := by
      constructor
      · simp [downloadNames, initialInstallState]
      · intro d hd
        simp [initialInstallState] at hd
    exact hpres.2 hinv

/-- Witness for C2 on the concrete satisfiable cycle
`liba@1.0.0 → libb@^1.0.0 → liba@^1.0.0`: the fuel hypothesis holds, the
theorem applies, and the run terminates with each of the two names
downloaded exactly once. -/
theorem C2_cycle_termination_and_single_download_witness :
    unresolvedCount regCycle initialInstallState < 3 ∧
    (∀ e, processInstallation regCycle ("tpkm_installed_libs") none 3 ("liba")
        (Constraint.exact ver100) initialInstallState = .error e →
        e.1.isOutOfFuel = false) ∧
    processInstallation regCycle ("tpkm_installed_libs") none 3 ("liba")
        (Constraint.exact ver100) initialInstallState
      = .ok ⟨[(("libb"), ver100), (("liba"), ver100)],
             [(("liba"), ver100, ("tpkm_installed_libs/liba/1.0.0")),
              (("libb"), ver100, ("tpkm_installed_libs/libb/1.0.0"))], []⟩ :=
  ⟨by decide,
   (C2_cycle_termination_and_single_download regCycle ("tpkm_installed_libs")
     none ("liba") (Constraint.exact ver100) 3 (by decide)).1,
   rfl⟩

/-- C5: the claim states that for every keystore-decrypting operation the
password may be supplied either through the interactive prompt or through
the `TPKM_WALLET_PASSWORD` environment variable.  Evaluating the code at
the failing input shows otherwise: every listed command calls
`loadWalletAndConnect()` with prompting enabled (`loadWalletCallFlag`),
and in that mode the environment variable is never consulted — an empty
prompt entry aborts even when the variable is set, and the variable
supplies the password only when prompting is disabled, which no call site
does.  The empty-password rejection does hold in both modes. -/
theorem C5_env_password_unreachable :
    loadWalletCallFlag = true ∧
    acquirePassword loadWalletCallFlag ("") (some ("secret"))
      = .error ("Password cannot be empty. Aborting.") ∧
    acquirePassword loadWalletCallFlag ("typed") (some ("secret"))
      = .ok ("typed") ∧
    acquirePassword false ("") (some ("secret")) = .ok ("secret") ∧
    acquirePassword false ("") (some (""))
      = .error ("Password required for wallet operation.") ∧
    acquirePassword false ("") none
      = .error ("Password required for wallet operation.") :=
  ⟨rfl, rfl, rfl, rfl, rfl, rfl⟩

/-- C9: For every `config add <name>` invocation, the profile is
upserted, and the newly added profile becomes active not only under
`--set-active` but also whenever the store has no active profile (JS
falsy test) or holds exactly one profile after the addition; in every
other case the previously active profile is unchanged. -/
theorem C9_config_add_active_rules (cfg : NetworkConfig) (name : String)
    (p : NetworkProfile) (setActive : Bool) :
    ((configAdd cfg name p setActive).networks
      = upsertProfile cfg.networks name p) ∧
    (setActive = true → (configAdd cfg name p setActive).activeNetwork = some name) ∧
    (jsTruthy cfg.activeNetwork = false →
      (configAdd cfg name p setActive).activeNetwork = some name) ∧
    ((upsertProfile cfg.networks name p).length = 1 →
      (configAdd cfg name p setActive).activeNetwork = some name) ∧
    (setActive = false → jsTruthy cfg.activeNetwork = true →
      (upsertProfile cfg.networks name p).length ≠ 1 →
      (configAdd cfg name p setActive).activeNetwork = cfg.activeNetwork) := by
  refine ⟨?_, ?_, ?_, ?_, ?_⟩
  · unfold configAdd
    by_cases h : (setActive || !(jsTruthy cfg.activeNetwork) ||
        (upsertProfile cfg.networks name p).length == 1) = true <;> simp [h]
  · intro h
    unfold configAdd
    simp [h]
  · intro h
    unfold configAdd
    simp [h]
  · intro h
    unfold configAdd
    simp [h]
  · intro h1 h2 h3
    unfold configAdd
    have h4 : ((upsertProfile cfg.networks name p).length == 1) = false := by
      simpa using h3
    simp [h1, h2, h4]

/-- Witness for C9 at concrete inputs: adding to a store whose active
profile is set and which ends with two profiles keeps the active profile;
adding the first profile makes it active without `--set-active`. -/
theorem C9_config_add_active_rules_witness :
    (configAdd ⟨some ("old"), [(("old"), ⟨("r"), ("c")⟩)]⟩ ("new") ⟨("r2"), ("c2")⟩
        false).activeNetwork = some ("old") ∧
    (configAdd ⟨none, []⟩ ("first") ⟨("r"), ("c")⟩ false).activeNetwork
      = some ("first") :=
  ⟨(C9_config_add_active_rules ⟨some ("old"), [(("old"), ⟨("r"), ("c")⟩)]⟩ ("new")
      ⟨("r2"), ("c2")⟩ false).2.2.2.2 rfl (by decide) (by decide),
   (C9_config_add_active_rules ⟨none, []⟩ ("first") ⟨("r"), ("c")⟩ false).2.2.1
     (by decide)⟩

/-- C10: For every `deprecate name@version` invocation whose on-chain
version record already has `deprecated = true` (with the caller passing
the ownership pre-check), the command stops at the read-only pre-check
and submits no write transaction, regardless of the confirmation answer. -/
theorem C10_deprecate_already_deprecated_stops (env : DeprecateEnv)
    (owner : String) (ho : env.ownerOnChain = some owner)
    (heq : (lowerString owner == lowerString env.signerAddr) = true)
    (hd : env.versionDeprecated = some true) :
    deprecateRun env = (.alreadyDeprecatedStop, false) := by
  unfold deprecateRun
  rw [ho]
  simp [heq, hd]

/-- Witness for C10 at a concrete input: owner `0xAB` (signer `0xab`),
record already deprecated, confirmation answered yes — the run stops with
no transaction. -/
theorem C10_deprecate_already_deprecated_stops_witness :
    deprecateRun depEnvAlready = (.alreadyDeprecatedStop, false) :=
  C10_deprecate_already_deprecated_stops depEnvAlready ("0xAB") rfl (by decide) rfl

/-- C3: For every resolution step whose chosen version's on-chain record
carries an invalid ipfsHash (empty, whitespace-only, or the `0x0000`
sentinel), the step deletes the entry it added to the resolved set and
aborts with the bad-record error whose carried state is the unchanged
input state; when the record's deprecated flag is true but the ipfsHash
is valid, the step records the deprecation warning and continues — the
library is downloaded and extracted and the warning survives into the
final state of the run. -/
theorem C3_bad_record_rollback_and_deprecated_warning
    (reg : Registry) (root : String) (inst : Option String) (fuel : Nat)
    (name : String) (c : Constraint) (st : InstallState) (chosen : SemVer)
    (rcd : VersionRecord)
    (hres : st.resolved.lookup name = none)
    (hemp : (reg.versionNumbers name).isEmpty = false)
    (hmax : maxSatisfying (reg.versionNumbers name) c = some chosen)
    (hacc : accessGate reg inst name = true)
    (hinfo : reg.versionInfo name chosen = some rcd) :
    (invalidIpfsHash rcd.ipfsHash = true →
      processInstallation reg root inst (fuel + 1) name c st
        = .error (.badRecord name chosen, st)) ∧
    (invalidIpfsHash rcd.ipfsHash = false → rcd.deprecated = true →
      (name, chosen) ∈ (resultState (processInstallation reg root inst
          (fuel + 1) name c st)).deprecationWarnings ∧
      (name, chosen, installTargetPath root name chosen)
        ∈ (resultState (processInstallation reg root inst
            (fuel + 1) name c st)).downloads) := by
  have herase : eraseKey name ((name, chosen) :: st.resolved) = st.resolved := by
    unfold eraseKey
    rw [List.eraseP_cons]
    simp
  constructor
  · intro hbad
    have hstep : processInstallation reg root inst (fuel + 1) name c st
        = .error (.badRecord name chosen,
            { st with resolved := eraseKey name ((name, chosen) :: st.resolved) }) := by
      rw [processInstallation_succ]
      unfold installStep
      rw [hres]
      simp [hemp, hmax, hacc, hinfo, hbad]
    rw [hstep, herase]
  · intro hbad hdep
    have hstep : processInstallation reg root inst (fuel + 1) name c st
        = List.foldlM (fun s d => processInstallation reg root inst fuel d.1 d.2 s)
            (installEffects root name chosen rcd
              { st with resolved := (name, chosen) :: st.resolved }) rcd.deps := by
      rw [processInstallation_succ]
      unfold installStep
      rw [hres]
      simp [hemp, hmax, hacc, hinfo, hbad]
    rw [hstep]
    have hgrow := foldlM_resultState_chain
      (fun s d => processInstallation reg root inst fuel d.1 d.2 s)
      StateGrowth stateGrowth_refl (fun _ _ _ => stateGrowth_trans)
      (fun s d => processInstallation_growth reg root inst fuel d.1 d.2 s)
      rcd.deps
      (installEffects root name chosen rcd
        { st with resolved := (name, chosen) :: st.resolved })
    obtain ⟨⟨td, hd⟩, ⟨tw, hw⟩⟩ := hgrow
    constructor
    · rw [hw, installEffects_warnings, hdep]
      simp
    · rw [hd, installEffects_downloads]
      simp

/-- Witness for C3 at concrete inputs: a record with an empty ipfsHash
leads to the bad-record abort with the resolved entry rolled back, and a
deprecated record with a valid hash is warned about and still installed. -/
theorem C3_bad_record_rollback_and_deprecated_warning_witness :
    processInstallation regBadHash ("tpkm_installed_libs") none 1 ("lib")
        (Constraint.exact ver100) initialInstallState
      = .error (.badRecord ("lib") ver100, initialInstallState) ∧
    ((("lib"), ver100) ∈ (resultState (processInstallation regDeprecated
        ("tpkm_installed_libs") none 1 ("lib") (Constraint.exact ver100)
        initialInstallState)).deprecationWarnings ∧
      (("lib"), ver100, ("tpkm_installed_libs/lib/1.0.0"))
        ∈ (resultState (processInstallation regDeprecated
            ("tpkm_installed_libs") none 1 ("lib") (Constraint.exact ver100)
            initialInstallState)).downloads) :=
  ⟨(C3_bad_record_rollback_and_deprecated_warning regBadHash
      ("tpkm_installed_libs") none 0 ("lib") (Constraint.exact ver100)
      initialInstallState ver100 ⟨(""), false, []⟩ (by decide) (by decide)
      (by decide) (by decide) (by decide)).1 (by decide),
   (C3_bad_record_rollback_and_deprecated_warning regDeprecated
      ("tpkm_installed_libs") none 0 ("lib") (Constraint.exact ver100)
      initialInstallState ver100 ⟨("QmD"), true, []⟩ (by decide) (by decide)
      (by decide) (by decide) (by decide)).2 (by decide) (by decide)⟩

/-- C4: For every install invocation naming a library without a version,
the command drops every prerelease from the fetched version list, fails
when no stable version remains, and otherwise selects the highest
remaining version by SemVer precedence; the chosen version then becomes
the exact top-level constraint handed to the recursive resolution. -/
theorem C4_latest_stable_selection :
    (∀ (available : List SemVer) (v : SemVer), resolveLatest available = .ok v →
      v.isStable = true ∧ v ∈ available ∧
        ∀ w ∈ available, w.isStable = true → SemVer.precLt v w = false) ∧
    (∀ available : List SemVer, available ≠ [] →
      (∀ w ∈ available, w.isStable = false) →
      resolveLatest available = .error .noStable) ∧
    (∀ (reg : Registry) (root : String) (inst : Option String) (name : String)
        (fuel : Nat) (chosen : SemVer),
      accessGate reg inst name = true →
      resolveLatest (reg.versionNumbers name) = .ok chosen →
      installCommandLatest reg root inst name fuel
        = (match processInstallation reg root inst fuel name
              (Constraint.exact chosen) initialInstallState with
           | .ok st => .ok st
           | .error (e, st) => .error (.stepFailed e st))) := by
  refine ⟨?_, ?_, ?_⟩
  · intro available v h
    unfold resolveLatest at h
    by_cases he : available.isEmpty = true
    · rw [if_pos he] at h
      cases h
    · rw [if_neg he] at h
      by_cases hf : (available.filter SemVer.isStable).isEmpty = true
      · rw [if_pos hf] at h
        cases h
      · rw [if_neg hf] at h
        cases hm : maxSatisfying (available.filter SemVer.isStable)
            Constraint.star with
        | none =>
          rw [hm] at h
          cases h
        | some m =>
          rw [hm] at h
          injection h with h2
          subst h2
          obtain ⟨hmem, hsat, hbest⟩ := maxSatisfying_spec hm
          obtain ⟨hin, hstable⟩ := List.mem_filter.mp hmem
          refine ⟨hstable, hin, ?_⟩
          intro w hw hws
          refine hbest w (List.mem_filter.mpr ⟨hw, hws⟩) ?_
          simpa [satisfies, SemVer.isStable] using hws
  · intro available hne hall
    unfold resolveLatest
    have he : available.isEmpty = false := by
      cases available with
      | nil => exact absurd rfl hne
      | cons a t => rfl
    rw [if_neg (by simp [he])]
    have hf : available.filter SemVer.isStable = [] := by
      rw [List.filter_eq_nil_iff]
      intro a ha
      simp [hall a ha]
    rw [hf]
    rfl
  · intro reg root inst name fuel chosen hacc hlatest
    unfold installCommandLatest
    rw [if_neg (by simp [hacc]), hlatest]

/-- Witness for C4 on the concrete scenario: available versions
1.0.0, 1.1.0, 2.0.0-beta.1 — 1.1.0 is chosen (stable, present, highest
stable), and the full install run extracts into
`tpkm_installed_libs/lib/1.1.0`. -/
theorem C4_latest_stable_selection_witness :
    resolveLatest [ver100, ver110, ver200beta1] = .ok ver110 ∧
    (ver110.isStable = true ∧ ver110 ∈ [ver100, ver110, ver200beta1] ∧
      ∀ w ∈ [ver100, ver110, ver200beta1], w.isStable = true →
        SemVer.precLt ver110 w = false) ∧
    installCommandLatest regLatest ("tpkm_installed_libs") none ("lib") 1
      = .ok ⟨[(("lib"), ver110)],
             [(("lib"), ver110, ("tpkm_installed_libs/lib/1.1.0"))], []⟩ :=
  ⟨rfl,
   C4_latest_stable_selection.1 [ver100, ver110, ver200beta1] ver110 rfl,
   rfl⟩

/-- C6 counterexample: with `activeNetwork = "ghost"` naming no stored
profile and a valid environment pair, the resolution falls through to the
environment variables but prints no warning — refuting the claim that an
activeNetwork naming no existing profile falls through *with a warning*. -/
theorem C6_counterexample_dangling_name_silent :
    (resolveChainEndpoints (fun _ => true) ⟨some ("ghost"), []⟩
        ⟨some ("http://rpc"), some ("0x1"), none⟩).2 = false ∧
    (resolveChainEndpoints (fun _ => true) ⟨some ("ghost"), []⟩
        ⟨some ("http://rpc"), some ("0x1"), none⟩).1
      = some ⟨("http://rpc"), ("0x1"), ("custom (.env)")⟩ :=
  ⟨rfl, rfl⟩

/-- C6 (amended): the effective RPC URL and contract address come first
from a valid active profile, then from the environment pair, and
otherwise resolution yields nothing and the command fails with guidance
(no silent default); an existing but partial/invalid active profile falls
through to the environment variables with a warning, while an
activeNetwork naming no stored profile falls through silently; neither is
fatal.  When only the IPFS URL is unresolved it defaults to
`http://127.0.0.1:5001/api/v0`. -/
theorem C6_network_precedence_amended (isAddr : String → Bool)
    (cfg : NetworkConfig) (env : EnvVars) :
    (∀ n p, cfg.activeNetwork = some n → (n == ("" : String)) = false →
      cfg.networks.lookup n = some p → profileValid isAddr p = true →
      resolveChainEndpoints isAddr cfg env
        = (some ⟨p.rpcUrl, p.contractAddress, n⟩, false)) ∧
    (∀ n p, cfg.activeNetwork = some n → (n == ("" : String)) = false →
      cfg.networks.lookup n = some p → profileValid isAddr p = false →
      resolveChainEndpoints isAddr cfg env = (envEndpoints isAddr env, true)) ∧
    (∀ n, cfg.activeNetwork = some n → (n == ("" : String)) = false →
      cfg.networks.lookup n = none →
      resolveChainEndpoints isAddr cfg env = (envEndpoints isAddr env, false)) ∧
    (cfg.activeNetwork = none →
      resolveChainEndpoints isAddr cfg env = (envEndpoints isAddr env, false)) ∧
    (env.rpcUrl = none ∨ env.contractAddress = none →
      envEndpoints isAddr env = none) ∧
    (jsTruthy env.ipfsApiUrl = false → resolveIpfsUrl env = DEFAULT_IPFS_API_URL) ∧
    (∀ s, env.ipfsApiUrl = some s → (s == ("" : String)) = false →
      resolveIpfsUrl env = s) := by
  refine ⟨?_, ?_, ?_, ?_, ?_, ?_, ?_⟩
  · intro n p ha hn hl hv
    unfold resolveChainEndpoints
    rw [ha]
    simp [hn, hl, hv]
  · intro n p ha hn hl hv
    unfold resolveChainEndpoints
    rw [ha]
    simp [hn, hl, hv]
  · intro n ha hn hl
    unfold resolveChainEndpoints
    rw [ha]
    simp [hn, hl]
  · intro ha
    unfold resolveChainEndpoints
    rw [ha]
  · intro h
    unfold envEndpoints
    rcases h with h | h
    · rw [h]
    · rw [h]
      cases env.rpcUrl <;> rfl
  · intro h
    unfold resolveIpfsUrl
    cases he : env.ipfsApiUrl with
    | none => rfl
    | some s =>
      rw [he] at h
      unfold jsTruthy at h
      simp at h
      simp [h]
  · intro s he hs
    unfold resolveIpfsUrl
    rw [he]
    simp [hs]

/-- Witness for the amended C6 at concrete inputs: a valid active profile
is used with no warning, and with no environment IPFS URL the default
endpoint is chosen. -/
theorem C6_network_precedence_amended_witness :
    resolveChainEndpoints (fun _ => true)
        ⟨some ("local"), [(("local"), ⟨("http://rpc"), ("0xabc")⟩)]⟩
        ⟨none, none, none⟩
      = (some ⟨("http://rpc"), ("0xabc"), ("local")⟩, false) ∧
    resolveIpfsUrl ⟨none, none, none⟩ = DEFAULT_IPFS_API_URL :=
  ⟨(C6_network_precedence_amended (fun _ => true)
      ⟨some ("local"), [(("local"), ⟨("http://rpc"), ("0xabc")⟩)]⟩
      ⟨none, none, none⟩).1 ("local") ⟨("http://rpc"), ("0xabc")⟩
      rfl (by decide) (by decide) (by decide),
   (C6_network_precedence_amended (fun _ => true)
      ⟨some ("local"), [(("local"), ⟨("http://rpc"), ("0xabc")⟩)]⟩
      ⟨none, none, none⟩).2.2.2.2.2.1 rfl⟩

/-- C7: For every publish invocation whose on-chain owner differs from
the signer (lowercased comparison), the command aborts with the
permission outcome before any archive is built and before any IPFS
upload; on every exit path a created temp archive is deleted when the
unlink succeeds, and an unlink failure never changes the outcome. -/
theorem C7_publish_ownership_gate_and_cleanup (env : PublishEnv) :
    (∀ cfg nm ver owner,
      env.dirOk = true → env.configFile = some cfg → cfg.name = some nm →
      (match env.versionOverride with
       | some v => some v
       | none => cfg.version) = some ver →
      env.ownerOnChain = some owner →
      (lowerString owner == lowerString env.signerAddr) = false →
      publishRun env = ⟨.notOwner, false, false, false, false⟩) ∧
    (env.unlinkOk = true → (publishRun env).tempFileLeft = false) ∧
    (∀ b, (publishRun { env with unlinkOk := b }).outcome
      = (publishRun env).outcome) := by
  refine ⟨?_, ?_, ?_⟩
  · intro cfg nm ver owner hdir hcfg hnm hver howner hmm
    unfold publishRun publishAttempt
    rw [hdir, hcfg, howner]
    simp [hnm, hver, hmm]
  · intro h
    rcases hpa : publishAttempt env.dirOk env.configFile env.versionOverride
        env.ownerOnChain env.signerAddr env.archiveOk env.ipfsCid env.txOk
      with ⟨o, a, u, t, cr⟩
    simp [publishRun, hpa, h]
  · intro b
    rcases hpa : publishAttempt env.dirOk env.configFile env.versionOverride
        env.ownerOnChain env.signerAddr env.archiveOk env.ipfsCid env.txOk
      with ⟨o, a, u, t, cr⟩
    simp [publishRun, hpa]

/-- Witness for C7 at a concrete input: the config names `foo` at version
1.0.0, the on-chain owner is `0xAB` while the signer is `0xCD`, and every
later stage would succeed — the run stops with the permission outcome, no
archive, no upload, and no temp file; the outcome is the same whether the
unlink would succeed or fail. -/
theorem C7_publish_ownership_gate_and_cleanup_witness :
    publishRun pubEnvMismatch
      = ⟨.notOwner, false, false, false, false⟩ ∧
    (publishRun pubEnvMismatch).tempFileLeft = false ∧
    (publishRun { pubEnvMismatch with unlinkOk := false }).outcome
      = (publishRun pubEnvMismatch).outcome :=
  ⟨(C7_publish_ownership_gate_and_cleanup pubEnvMismatch).1
      ⟨some ("foo"), some ver100, []⟩ ("foo") ver100 ("0xAB")
      rfl rfl rfl rfl rfl (by decide),
   (C7_publish_ownership_gate_and_cleanup pubEnvMismatch).2.1 rfl,
   (C7_publish_ownership_gate_and_cleanup pubEnvMismatch).2.2 false⟩

/-- C8: For every purchase-license invocation, the command refuses
without sending a transaction when the caller is the owner, when the
library is private, when no license is required, or when the caller
already holds a license; with no `--amount` the submitted transaction's
value equals exactly the on-chain fee; an explicit amount below the fee
is rejected without a transaction; and an amount above the fee only
produces the overpayment warning, the transaction carrying that amount. -/
theorem C8_purchase_license_checks_and_value (env : PurchaseEnv) :
    ((lowerString env.signerAddr == lowerString env.ownerOnChain) = true →
      (purchaseLicenseRun env).txValue = none) ∧
    (env.isPrivate = true → (purchaseLicenseRun env).txValue = none) ∧
    (env.licenseRequired = false → (purchaseLicenseRun env).txValue = none) ∧
    (env.alreadyHasLicense = true → (purchaseLicenseRun env).txValue = none) ∧
    ((lowerString env.signerAddr == lowerString env.ownerOnChain) = false →
      env.isPrivate = false → env.licenseRequired = true →
      env.alreadyHasLicense = false → env.amountOpt = none →
      env.confirm = true →
      purchaseLicenseRun env = ⟨.txSubmitted, some env.licenseFee, false⟩) ∧
    ((lowerString env.signerAddr == lowerString env.ownerOnChain) = false →
      env.isPrivate = false → env.licenseRequired = true →
      env.alreadyHasLicense = false →
      ∀ a, env.amountOpt = some a → a < env.licenseFee →
        (purchaseLicenseRun env).txValue = none) ∧
    ((lowerString env.signerAddr == lowerString env.ownerOnChain) = false →
      env.isPrivate = false → env.licenseRequired = true →
      env.alreadyHasLicense = false →
      ∀ a, env.amountOpt = some a → env.licenseFee < a →
        (purchaseLicenseRun env).overpayWarning = true ∧
        (env.confirm = true →
          purchaseLicenseRun env = ⟨.txSubmitted, some a, true⟩)) := by
  refine ⟨?_, ?_, ?_, ?_, ?_, ?_, ?_⟩
  · intro h
    unfold purchaseLicenseRun
    simp [h]
  · intro h
    unfold purchaseLicenseRun
    by_cases ho : (lowerString env.signerAddr == lowerString env.ownerOnChain)
        = true <;> simp [ho, h]
  · intro h
    unfold purchaseLicenseRun
    by_cases ho : (lowerString env.signerAddr == lowerString env.ownerOnChain)
        = true
    · simp [ho]
    · by_cases hp : env.isPrivate = true <;> simp [ho, hp, h]
  · intro h
    unfold purchaseLicenseRun
    by_cases ho : (lowerString env.signerAddr == lowerString env.ownerOnChain)
        = true
    · simp [ho]
    · by_cases hp : env.isPrivate = true
      · simp [ho, hp]
      · by_cases hr : env.licenseRequired = true <;> simp [ho, hp, hr, h]
  · intro ho hp hr hl ha hc
    unfold purchaseLicenseRun
    rw [ha]
    simp [ho, hp, hr, hl, hc]
  · intro ho hp hr hl a ha hlt
    unfold purchaseLicenseRun
    rw [ha]
    by_cases hz : (a == 0 && decide (0 < env.licenseFee)) = true
    · simp [ho, hp, hr, hl, hz]
    · simp only [Bool.not_eq_true] at hz
      simp [ho, hp, hr, hl, hz, hlt]
  · intro ho hp hr hl a ha hgt
    unfold purchaseLicenseRun
    rw [ha]
    have hz : (a == 0 && decide (0 < env.licenseFee)) = false := by
      have : (a == 0) = false := by
        have : a ≠ 0 := by omega
        simp [this]
      simp [this]
    have hnl : ¬ (a < env.licenseFee) := by omega
    constructor
    · simp [ho, hp, hr, hl, hz, hnl, hgt]
      by_cases hc : env.confirm = true <;> simp [hc]
    · intro hc
      simp [ho, hp, hr, hl, hz, hnl, hgt, hc]

/-- Witness for C8 at the spec's concrete scenario: fee
10^16 wei (0.01 ETH), license required, caller neither owner nor
licensed, no `--amount`, confirmed — the transaction value is exactly the
fee and no overpayment warning is printed. -/
theorem C8_purchase_license_checks_and_value_witness :
    purchaseLicenseRun purEnvExactFee
      = ⟨.txSubmitted, some 10000000000000000, false⟩ :=
  (C8_purchase_license_checks_and_value purEnvExactFee).2.2.2.2.1
    (by decide) rfl rfl rfl rfl rfl

end TPKM
